import Mathlib

/-!
Verification of the WebSocket message-batching core
(`services/websocket_manager.py`): a shallow embedding of `MessageBatcher`
and `WebSocketManager` together with theorems settling the specification
claims about coalescing, flush triggering, ordering, timer lifecycle,
failure handling and registry bookkeeping.

Modelling conventions:
- Python dicts are association lists (`List (String × α)`) with
  insertion-order semantics: overwriting a key keeps its original
  position, exactly as CPython does.
- Python sets are duplicate-free lists; `set.add` appends when absent.
- `asyncio.Task` handles in `_flush_tasks` are abstracted to a two-state
  timer: `outstanding` (the delayed flush has not yet run) and `doneT`
  (the task finished or was cancelled-but-still-referenced); `del`
  removes the entry.  The only observation the source makes on a task is
  `.done()`.
- The transport (`websocket.send_json`) is abstracted by a success
  predicate `sendOk : String → Bool` per connection id; a raising send is
  an `Except.error`.  `try/except` blocks become total matches.
- `datetime` timestamps are dropped (never inspected by the logic); the
  `BATCH_PATCH` wrapper keeps its `patches` list and `count` fields.
- Message payload values are an arbitrary type `V` (the batcher never
  inspects a patch's `value`).
-/

set_option autoImplicit false

namespace WsBatch

variable {V : Type} {α : Type}

/-- The string values of the `MessageType` `str`-enum. -/
def MessageType.SNAPSHOT : String := "snapshot"

def MessageType.PATCH : String := "patch"

def MessageType.BATCH_PATCH : String := "batch_patch"

def MessageType.PING : String := "ping"

def MessageType.PONG : String := "pong"

/-- A JSON-patch-shaped dict as the batcher reads it: `patch.get("op")`
(absent key ⇒ `none`), `patch.get("path", "")` (we store the defaulted
path), and an optional `value`. -/
structure Patch (V : Type) where
  op : Option String
  path : String
  value : Option V
deriving DecidableEq, Repr

/-- The payload (`msg.data`) of a pending message, as far as the batcher
inspects it.  For a `PATCH`-typed message the source evaluates
`msg.data.get("patches", [msg.data])`: a mapping holding the key
`"patches"` yields its list (`withPatches`), any other mapping is itself
read as a single patch (`single`).  Payloads of non-`PATCH` messages are
never inspected; `raw` stands for such an opaque payload.  (A
non-mapping payload on a `PATCH` message raises `AttributeError` in the
source and is not modelled.) -/
inductive MsgData (V : Type) where
  | withPatches : List (Patch V) → MsgData V
  | single : Patch V → MsgData V
  | raw : V → MsgData V
deriving DecidableEq, Repr

/-- Embeds `PendingMessage` (timestamp dropped; never read by the logic). -/
structure PendingMessage (V : Type) where
  type : String
  data : MsgData V
  priority : Int := 0
deriving DecidableEq, Repr

/-- Embeds `BatchConfig`. -/
structure BatchConfig where
  max_batch_size : Nat := 50
  max_batch_delay_ms : Nat := 100
  enabled : Bool := true
deriving DecidableEq, Repr

mutual
/-- An outgoing `{"type": ..., "data": ...}` dict produced by the
batcher. -/
inductive OutMsg (V : Type) where
  | mk : String → OutData V → OutMsg V

/-- The `"data"` field of an outgoing dict: a passed-through pending
payload, a passed-through unknown-op patch, the merged
`{"patches": [...]}` dict, or the `BATCH_PATCH` payload
`{"patches": ..., "count": ...}` (timestamp dropped). -/
inductive OutData (V : Type) where
  | fromMsg : MsgData V → OutData V
  | fromPatch : Patch V → OutData V
  | patches : List (Patch V) → OutData V
  | batchPayload : List (OutMsg V) → Nat → OutData V
end

/-- The `"type"` field of an outgoing dict. -/
def OutMsg.type : OutMsg V → String
  | .mk t _ => t

/-- The `"data"` field of an outgoing dict. -/
def OutMsg.data : OutMsg V → OutData V
  | .mk _ d => d

/-! ### Association lists with CPython dict semantics -/

/-- Dict lookup. -/
def lookupA : List (String × α) → String → Option α
  | [], _ => none
  | (k', v) :: rest, k => if k' = k then some v else lookupA rest k

/-- Dict store `m[k] = v`: overwrite in place (keeping the key's original
insertion position) or append. -/
def setA : List (String × α) → String → α → List (String × α)
  | [], k, v => [(k, v)]
  | (k', v') :: rest, k, v =>
      if k' = k then (k', v) :: rest else (k', v') :: setA rest k v

/-- Dict removal (`del m[k]` / `m.pop(k, …)`). -/
def eraseA : List (String × α) → String → List (String × α)
  | [], _ => []
  | (k', v) :: rest, k =>
      if k' = k then eraseA rest k else (k', v) :: eraseA rest k

/-- Python `set.add` on a duplicate-free list. -/
def insertUniq (l : List String) (x : String) : List String :=
  if x ∈ l then l else l ++ [x]

/-! ### `MessageBatcher._optimize_batch` -/

/-- Evaluates `msg.data.get("patches", [msg.data])`. -/
def MsgData.getPatches : MsgData V → List (Patch V)
  | .withPatches ps => ps
  | .single p => [p]
  | .raw _ => []

/-- The inner loop of `_optimize_batch` over one message's patches:
`replace`/`add`/`remove` ops are stored into the `path_patches` dict
(last writer wins per path), every other patch is appended to
`other_messages` as `{"type": msg.type, "data": patch}`. -/
def procPatches (t : String) :
    List (Patch V) → List (String × Patch V) → List (OutMsg V) →
    List (String × Patch V) × List (OutMsg V)
  | [], pp, om => (pp, om)
  | p :: rest, pp, om =>
      match p.op with
      | some o =>
          if o = "replace" ∨ o = "add" then
            procPatches t rest (setA pp p.path p) om
          else if o = "remove" then
            procPatches t rest (setA pp p.path p) om
          else
            procPatches t rest pp (om ++ [.mk t (.fromPatch p)])
      | none => procPatches t rest pp (om ++ [.mk t (.fromPatch p)])

/-- The outer loop of `_optimize_batch`: `PATCH`-typed messages feed
`procPatches`; all other messages append
`{"type": msg.type, "data": msg.data}` to `other_messages`. -/
def optGo : List (PendingMessage V) → List (String × Patch V) →
    List (OutMsg V) → List (String × Patch V) × List (OutMsg V)
  | [], pp, om => (pp, om)
  | m :: rest, pp, om =>
      if m.type = MessageType.PATCH then
        let r := procPatches m.type m.data.getPatches pp om
        optGo rest r.1 r.2
      else optGo rest pp (om ++ [.mk m.type (.fromMsg m.data)])

/-- Embeds `MessageBatcher._optimize_batch`: `other_messages`, followed — when
the `path_patches` dict is non-empty — by one merged entry
`{"type": PATCH, "data": {"patches": list(path_patches.values())}}`. -/
def optimize_batch (msgs : List (PendingMessage V)) : List (OutMsg V) :=
  let r := optGo msgs [] []
  if r.1.isEmpty then r.2
  else r.2 ++ [.mk MessageType.PATCH (.patches (r.1.map Prod.snd))]

/-- The pure core of `MessageBatcher._flush` applied to a drained queue:
empty queue ⇒ empty batch; a single optimized entry is returned
unwrapped; otherwise the entries are wrapped in one `BATCH_PATCH`
envelope carrying the list and its count. -/
def flushBatch (msgs : List (PendingMessage V)) : List (OutMsg V) :=
  if msgs.isEmpty then []
  else
    let optimized := optimize_batch msgs
    if optimized.length = 1 then optimized
    else [.mk MessageType.BATCH_PATCH (.batchPayload optimized optimized.length)]

/-! ### `MessageBatcher` state -/

/-- Abstraction of an `asyncio.Task` stored in `_flush_tasks`:
`outstanding` = `.done()` is false, `doneT` = `.done()` is true. -/
inductive Timer where
  | outstanding
  | doneT
deriving DecidableEq, Repr

/-- The mutable state of a `MessageBatcher`: `_pending` and
`_flush_tasks`. -/
structure BatcherState (V : Type) where
  pending : List (String × List (PendingMessage V))
  flushTasks : List (String × Timer)
deriving DecidableEq, Repr

/-- A freshly constructed `MessageBatcher`. -/
def BatcherState.init : BatcherState V := ⟨[], []⟩

/-- Embeds `MessageBatcher._flush`: pop the connection's queue and batch it.
Does not touch `_flush_tasks`. -/
def flushSt (st : BatcherState V) (cid : String) :
    List (OutMsg V) × BatcherState V :=
  match lookupA st.pending cid with
  | none => ([], st)
  | some msgs => (flushBatch msgs, { st with pending := eraseA st.pending cid })

/-- The check `connection_id not in self._flush_tasks or
self._flush_tasks[connection_id].done()` guarding timer creation. -/
def taskDone : Option Timer → Bool
  | none => true
  | some .doneT => true
  | some .outstanding => false

/-- Embeds `MessageBatcher.add_message`.  Returns the flushed batch (`some`)
when batching is disabled, the priority is positive, or the queue
reaches `max_batch_size`; otherwise returns `none` after scheduling a
delayed-flush task if none is outstanding. -/
def add_message (cfg : BatchConfig) (st : BatcherState V) (cid : String)
    (mtype : String) (d : MsgData V) (priority : Int) :
    Option (List (OutMsg V)) × BatcherState V :=
  if cfg.enabled = false then
    (some [.mk mtype (.fromMsg d)], st)
  else
    let q := (lookupA st.pending cid).getD [] ++ [⟨mtype, d, priority⟩]
    let st1 : BatcherState V := { st with pending := setA st.pending cid q }
    if priority > 0 ∨ cfg.max_batch_size ≤ q.length then
      let r := flushSt st1 cid
      (some r.1, r.2)
    else if taskDone (lookupA st1.flushTasks cid) then
      (none, { st1 with flushTasks := setA st1.flushTasks cid .outstanding })
    else
      (none, st1)

/-- The body of `MessageBatcher._delayed_flush` once the sleep expires:
flush if the connection still has pending messages; afterwards the task
is complete, so its `_flush_tasks` entry (never removed by `_flush`)
reports `.done()`. -/
def delayedFlushFire (st : BatcherState V) (cid : String) :
    List (OutMsg V) × BatcherState V :=
  let r :=
    match lookupA st.pending cid with
    | some msgs => if msgs.isEmpty then ([], st) else flushSt st cid
    | none => ([], st)
  (r.1, { r.2 with flushTasks := setA r.2.flushTasks cid .doneT })

/-- Embeds `MessageBatcher.flush_all`: cancel and drop any flush task, then
flush. -/
def flush_all (st : BatcherState V) (cid : String) :
    List (OutMsg V) × BatcherState V :=
  flushSt { st with flushTasks := eraseA st.flushTasks cid } cid

/-- Embeds `MessageBatcher.clear`: cancel and drop any flush task, discard the
queue. -/
def clearB (st : BatcherState V) (cid : String) : BatcherState V :=
  ⟨eraseA st.pending cid, eraseA st.flushTasks cid⟩

/-! ### `WebSocketManager` -/

/-- The mutable state of a `WebSocketManager`: `_connections` (only the
registered ids matter; the socket object is abstracted away),
`_subscriptions` (channel → connection ids), `_connection_channels`
(connection id → channels), and the owned `MessageBatcher`. -/
structure WSManagerState (V : Type) where
  connections : List String
  subscriptions : List (String × List String)
  connection_channels : List (String × List String)
  batcher : BatcherState V
deriving DecidableEq, Repr

/-- A freshly constructed `WebSocketManager`. -/
def WSManagerState.init : WSManagerState V := ⟨[], [], [], BatcherState.init⟩

/-- One `websocket.send_json` call, abstracted by the per-connection
success predicate: failure raises. -/
def transportSend (sendOk : String → Bool) (cid : String) :
    Except String Unit :=
  if sendOk cid then .ok () else .error "send error"

/-- Embeds `self._subscriptions[channel].discard(connection_id)` —
`defaultdict` access creates the channel entry. -/
def discardFrom (m : List (String × List String)) (k x : String) :
    List (String × List String) :=
  setA m k (((lookupA m k).getD []).erase x)

/-- Embeds `WebSocketManager.disconnect`: drop the connection, remove it from
every channel it was subscribed to, clear its batcher state. -/
def disconnect (st : WSManagerState V) (cid : String) : WSManagerState V :=
  let channels := (lookupA st.connection_channels cid).getD []
  { connections := st.connections.erase cid
    subscriptions := channels.foldl (fun subs ch => discardFrom subs ch cid) st.subscriptions
    connection_channels := eraseA st.connection_channels cid
    batcher := clearB st.batcher cid }

/-- Embeds `WebSocketManager.subscribe`: unconditionally add the id to the
channel's member set and the channel to the id's channel set (both via
`defaultdict`). -/
def subscribe (st : WSManagerState V) (cid channel : String) :
    WSManagerState V :=
  { st with
    subscriptions :=
      setA st.subscriptions channel
        (insertUniq ((lookupA st.subscriptions channel).getD []) cid)
    connection_channels :=
      setA st.connection_channels cid
        (insertUniq ((lookupA st.connection_channels cid).getD []) channel) }

/-- Embeds `WebSocketManager.unsubscribe`. -/
def unsubscribe (st : WSManagerState V) (cid channel : String) :
    WSManagerState V :=
  { st with
    subscriptions := discardFrom st.subscriptions channel cid
    connection_channels := discardFrom st.connection_channels cid channel }

/-- Embeds `WebSocketManager.send_immediate`: no-op for unknown ids; a raising
send is caught and answered by `disconnect`. -/
def send_immediate (sendOk : String → Bool) (st : WSManagerState V)
    (cid : String) (mtype : String) (d : MsgData V) : WSManagerState V :=
  if cid ∈ st.connections then
    match transportSend sendOk cid with
    | .ok _ => st
    | .error _ => disconnect st cid
  else st

/-- The loop body of `_send_batch` before its `try/except`: send each
message, propagating the first failure. -/
def sendAll (sendOk : String → Bool) (cid : String) :
    List (OutMsg V) → Except String Unit
  | [] => .ok ()
  | _ :: rest =>
      match transportSend sendOk cid with
      | .ok _ => sendAll sendOk cid rest
      | .error e => .error e

/-- Embeds `WebSocketManager._send_batch`: the `except` clause catches every
transport failure and only logs it — no disconnect, nothing
propagates. -/
def send_batch (sendOk : String → Bool) (cid : String)
    (batch : List (OutMsg V)) : Except String Unit :=
  match sendAll sendOk cid batch with
  | .ok _ => .ok ()
  | .error _ => .ok ()

/-- Embeds `WebSocketManager.send_to_connection`: no-op for unknown ids;
otherwise enqueue, and transmit whatever batch comes back truthy. -/
def send_to_connection (sendOk : String → Bool) (cfg : BatchConfig)
    (st : WSManagerState V) (cid : String) (mtype : String) (d : MsgData V)
    (priority : Int) : Except String (WSManagerState V) :=
  if cid ∈ st.connections then
    let r := add_message cfg st.batcher cid mtype d priority
    let st' : WSManagerState V := { st with batcher := r.2 }
    match r.1 with
    | some batch =>
        if batch.isEmpty then .ok st'
        else do
          let _ ← send_batch sendOk cid batch
          .ok st'
    | none => .ok st'
  else .ok st

/-- Embeds `WebSocketManager.broadcast_to_channel`'s fan-out loop over the
membership snapshot; also returns the list of ids for which
`send_to_connection` was invoked and completed. -/
def broadcastGo (sendOk : String → Bool) (cfg : BatchConfig)
    (mtype : String) (d : MsgData V) (priority : Int) :
    List String → WSManagerState V →
    Except String (WSManagerState V × List String)
  | [], st => .ok (st, [])
  | c :: rest, st => do
      let st' ← send_to_connection sendOk cfg st c mtype d priority
      let r ← broadcastGo sendOk cfg mtype d priority rest st'
      .ok (r.1, c :: r.2)

/-- Embeds `WebSocketManager.broadcast_to_channel`: snapshot the channel's
member set (`.get(channel, set()).copy()`), then send to each member. -/
def broadcast_to_channel (sendOk : String → Bool) (cfg : BatchConfig)
    (st : WSManagerState V) (channel : String) (mtype : String)
    (d : MsgData V) (priority : Int) :
    Except String (WSManagerState V × List String) :=
  broadcastGo sendOk cfg mtype d priority
    ((lookupA st.subscriptions channel).getD []) st

/-- Embeds `WebSocketManager.flush_connection`: no-op for unknown ids;
otherwise force-flush the batcher and transmit a truthy batch. -/
def flush_connection (sendOk : String → Bool) (st : WSManagerState V)
    (cid : String) : Except String (WSManagerState V) :=
  if cid ∈ st.connections then
    let r := flush_all st.batcher cid
    let st' : WSManagerState V := { st with batcher := r.2 }
    if r.1.isEmpty then .ok st'
    else do
      let _ ← send_batch sendOk cid r.1
      .ok st'
  else .ok st

/-! ### Patch constructors (`create_task_patch` shapes) and claim-side
helper functions -/

/-- A `replace` patch (`create_task_patch` shape). -/
def mkReplace (p : String) (v : V) : Patch V := ⟨some "replace", p, some v⟩

/-- An `add` patch (`create_task_add_patch` shape). -/
def mkAdd (p : String) (v : V) : Patch V := ⟨some "add", p, some v⟩

/-- A `remove` patch (`create_task_remove_patch` shape: no value). -/
def mkRemove (p : String) : Patch V := ⟨some "remove", p, none⟩

/-- A `PATCH`-typed pending message carrying `{"patches": ps}`. -/
def patchMsg (ps : List (Patch V)) (pr : Int) : PendingMessage V :=
  ⟨MessageType.PATCH, .withPatches ps, pr⟩

/-- One normal-priority `replace` message per value, all targeting the
same path — the C1 scenario queue. -/
def mkReplaceMsgs (p : String) (vs : List V) : List (PendingMessage V) :=
  vs.map fun v => patchMsg [mkReplace p v] 0

/-- Does `_optimize_batch` route this op into the `path_patches` dict
(`replace`/`add`/`remove`) rather than passing it through? -/
def collapsibleOp : Option String → Bool
  | some o => o = "replace" || o = "add" || o = "remove"
  | none => false

/-- All collapsible patches contributed by one message, in submission
order. -/
def msgCollapsible (m : PendingMessage V) : List (Patch V) :=
  if m.type = MessageType.PATCH then
    m.data.getPatches.filter fun p => collapsibleOp p.op
  else []

/-- All collapsible patches of a queue, in submission order. -/
def allCollapsible (msgs : List (PendingMessage V)) : List (Patch V) :=
  msgs.flatMap msgCollapsible

/-- The pass-through entries of a queue in submission order: every
non-`PATCH` message, and every patch of a `PATCH` message whose op is
not collapsible. -/
def passThrough : List (PendingMessage V) → List (OutMsg V)
  | [] => []
  | m :: rest =>
      (if m.type = MessageType.PATCH then
        (m.data.getPatches.filter fun p => !collapsibleOp p.op).map
          fun p => OutMsg.mk m.type (.fromPatch p)
      else [.mk m.type (.fromMsg m.data)]) ++ passThrough rest

/-- The last patch for a given path in a list, if any — the
last-writer-wins reference semantics. -/
def lastForPath : List (Patch V) → String → Option (Patch V)
  | [], _ => none
  | p :: rest, k =>
      match lastForPath rest k with
      | some q => some q
      | none => if p.path = k then some p else none

/-- The `path_patches` dict update performed for one collapsible
patch. -/
def updPP (a : List (String × Patch V)) (q : Patch V) :
    List (String × Patch V) :=
  setA a q.path q

/-- The keys of an association list, in insertion order. -/
def keysA (m : List (String × α)) : List String := m.map Prod.fst

/-! ### Association-list lemmas -/

theorem lookupA_setA (m : List (String × α)) (k : String) (v : α)
    (k' : String) :
    lookupA (setA m k v) k' = if k = k' then some v else lookupA m k' := by
  induction m with
  | nil => simp [setA, lookupA]
  | cons hd tl ih =>
      obtain ⟨k0, v0⟩ := hd
      by_cases h0 : k0 = k
      · subst h0
        simp [setA, lookupA]
        split <;> simp_all
      · simp [setA, h0, lookupA]
        by_cases h1 : k0 = k'
        · subst h1
          have : ¬ k = k0 := fun h => h0 h.symm
          simp [this, lookupA]
        · simp [h1, ih]

theorem lookupA_eraseA (m : List (String × α)) (k k' : String) :
    lookupA (eraseA m k) k' = if k = k' then none else lookupA m k' := by
  induction m with
  | nil => simp [eraseA, lookupA]
  | cons hd tl ih =>
      obtain ⟨k0, v0⟩ := hd
      by_cases h0 : k0 = k
      · subst h0
        simp [eraseA, lookupA, ih]
        split <;> simp_all
      · simp [eraseA, h0, lookupA]
        by_cases h1 : k0 = k'
        · subst h1
          have : ¬ k = k0 := fun h => h0 h.symm
          simp [this, lookupA]
        · simp [h1, ih]

theorem keysA_setA (m : List (String × α)) (k : String) (v : α) :
    keysA (setA m k v) = if k ∈ keysA m then keysA m else keysA m ++ [k] := by
  induction m with
  | nil => simp [setA, keysA]
  | cons hd tl ih =>
      obtain ⟨k0, v0⟩ := hd
      by_cases h0 : k0 = k
      · subst h0
        simp [setA, keysA]
      · have hne : ¬ k = k0 := fun h => h0 h.symm
        simp only [setA, if_neg h0, keysA, List.map_cons] at ih ⊢
        rw [ih]
        by_cases hm : k ∈ List.map Prod.fst tl
        · simp [hm, hne]
        · simp [hm, hne]

theorem keysA_nodup_setA (m : List (String × α)) (k : String) (v : α)
    (h : (keysA m).Nodup) : (keysA (setA m k v)).Nodup := by
  rw [keysA_setA]
  split
  · exact h
  · next hk => simpa [List.nodup_append] using ⟨h, hk⟩

theorem mem_lookupA (m : List (String × α)) (k : String) (v : α)
    (hnd : (keysA m).Nodup) (hmem : (k, v) ∈ m) : lookupA m k = some v := by
  induction m with
  | nil => simp at hmem
  | cons hd tl ih =>
      obtain ⟨k0, v0⟩ := hd
      simp only [keysA, List.map_cons, List.nodup_cons] at hnd
      rcases List.mem_cons.mp hmem with h | h
      · obtain ⟨hk, hv⟩ : k = k0 ∧ v = v0 := by simpa [Prod.ext_iff] using h
        subst hk
        subst hv
        simp [lookupA]
      · have hk0 : ¬ k0 = k := by
          intro he
          subst he
          exact hnd.1 (List.mem_map.mpr ⟨(k0, v), h, rfl⟩)
        rw [lookupA, if_neg hk0]
        exact ih (by simpa [keysA] using hnd.2) h

theorem lookupA_mem (m : List (String × α)) (k : String) (v : α)
    (h : lookupA m k = some v) : (k, v) ∈ m := by
  induction m with
  | nil => simp [lookupA] at h
  | cons hd tl ih =>
      obtain ⟨k0, v0⟩ := hd
      by_cases h0 : k0 = k
      · subst h0
        simp [lookupA] at h
        simp [h]
      · simp [lookupA, h0] at h
        exact List.mem_cons_of_mem _ (ih h)

theorem lookupA_isSome_of_mem_keys (m : List (String × α)) (k : String)
    (h : k ∈ keysA m) : (lookupA m k).isSome := by
  induction m with
  | nil => simp [keysA] at h
  | cons hd tl ih =>
      obtain ⟨k0, v0⟩ := hd
      by_cases h0 : k0 = k
      · simp [lookupA, h0]
      · have h' : k ∈ keysA tl := by
          simp only [keysA, List.map_cons, List.mem_cons] at h
          rcases h with h | h
          · exact absurd h.symm h0
          · exact h
        simpa [lookupA, h0] using ih h'

theorem snd_mem_of_mem (m : List (String × α)) (v : α)
    (h : v ∈ m.map Prod.snd) : ∃ k, (k, v) ∈ m := by
  rcases List.mem_map.mp h with ⟨⟨k, v'⟩, hm, he⟩
  have hv : v' = v := he
  subst hv
  exact ⟨k, hm⟩

/-! ### Characterization of `_optimize_batch` -/

theorem procPatches_spec (t : String) (ps : List (Patch V)) :
    ∀ (pp : List (String × Patch V)) (om : List (OutMsg V)),
    procPatches t ps pp om =
      ((ps.filter fun p => collapsibleOp p.op).foldl updPP pp,
       om ++ (ps.filter fun p => !collapsibleOp p.op).map
         fun p => OutMsg.mk t (.fromPatch p)) := by
  induction ps with
  | nil => intro pp om; simp [procPatches]
  | cons p rest ih =>
      intro pp om
      match hop : p.op with
      | some o =>
          by_cases h1 : o = "replace" ∨ o = "add"
          · have hc : collapsibleOp (some o) = true := by
              rcases h1 with h | h <;> simp [collapsibleOp, h]
            simp only [procPatches, hop, if_pos h1, ih, List.filter_cons, hc,
              updPP]
            simp [hc, updPP]
          · by_cases h2 : o = "remove"
            · have hc : collapsibleOp (some o) = true := by
                simp [collapsibleOp, h2]
              simp only [procPatches, hop, if_neg h1, if_pos h2, ih,
                List.filter_cons, hc, updPP]
              simp [hc, updPP]
            · have hc : collapsibleOp (some o) = false := by
                push_neg at h1
                simp [collapsibleOp, h1.1, h1.2, h2]
              simp only [procPatches, hop, if_neg h1, if_neg h2, ih,
                List.filter_cons, hc]
              simp [hc]
      | none =>
          have hc : collapsibleOp (none : Option String) = false := by
            simp [collapsibleOp]
          simp only [procPatches, hop, ih, List.filter_cons, hc]
          simp [hc]

theorem optGo_spec (msgs : List (PendingMessage V)) :
    ∀ (pp : List (String × Patch V)) (om : List (OutMsg V)),
    optGo msgs pp om =
      ((allCollapsible msgs).foldl updPP pp, om ++ passThrough msgs) := by
  induction msgs with
  | nil => intro pp om; simp [optGo, allCollapsible, passThrough]
  | cons m rest ih =>
      intro pp om
      by_cases ht : m.type = MessageType.PATCH
      · simp only [optGo, if_pos ht, procPatches_spec, ih, allCollapsible,
          List.flatMap_cons, List.foldl_append, passThrough, msgCollapsible,
          if_pos ht]
        simp [allCollapsible, List.append_assoc]
      · simp only [optGo, if_neg ht, ih, allCollapsible, List.flatMap_cons,
          passThrough, msgCollapsible, if_neg ht]
        simp [allCollapsible, List.append_assoc]

/-- Characterizes `_optimize_batch` in separated form: pass-through entries first (in
submission order), then — iff any collapsible patch exists — the single
merged `PATCH` entry built by folding the last-writer-wins dict
update. -/
theorem optimize_batch_spec (msgs : List (PendingMessage V)) :
    optimize_batch msgs =
      passThrough msgs ++
        (if ((allCollapsible msgs).foldl updPP []).isEmpty then []
         else [OutMsg.mk MessageType.PATCH
           (.patches (((allCollapsible msgs).foldl updPP []).map Prod.snd))]) := by
  simp only [optimize_batch, optGo_spec]
  split <;> simp_all

/-- Looking up a path in the folded `path_patches` dict finds exactly
the last patch submitted for that path. -/
theorem lookupA_foldl_updPP (ps : List (Patch V)) :
    ∀ (pp : List (String × Patch V)) (k : String),
    lookupA (ps.foldl updPP pp) k =
      (lastForPath ps k).or (lookupA pp k) := by
  induction ps with
  | nil => intro pp k; simp [lastForPath, Option.or]
  | cons p rest ih =>
      intro pp k
      simp only [List.foldl_cons, ih, lastForPath, updPP]
      cases lastForPath rest k with
      | some q => simp [Option.or]
      | none =>
          simp only [lookupA_setA]
          by_cases h : p.path = k <;> simp [h, Option.or]

/-- Every key of the folded dict maps to a patch whose `path` is that
key, provided the starting dict does. -/
theorem foldl_updPP_path_inv (ps : List (Patch V)) :
    ∀ (pp : List (String × Patch V)),
    (∀ kv ∈ pp, (Prod.snd kv).path = Prod.fst kv) →
    ∀ kv ∈ ps.foldl updPP pp, (Prod.snd kv).path = Prod.fst kv := by
  induction ps with
  | nil => intro pp h; simpa using h
  | cons p rest ih =>
      intro pp h
      refine ih (setA pp p.path p) ?_
      intro kv hkv
      clear ih
      induction pp with
      | nil =>
          simp [setA] at hkv
          simp [hkv]
      | cons hd tl ih2 =>
          obtain ⟨k0, v0⟩ := hd
          by_cases h0 : k0 = p.path
          · subst h0
            simp only [setA, if_pos rfl] at hkv
            rcases List.mem_cons.mp hkv with h' | h'
            · simp [h']
            · exact h _ (List.mem_cons_of_mem _ h')
          · simp only [setA, if_neg h0] at hkv
            rcases List.mem_cons.mp hkv with h' | h'
            · exact h _ (by simp [h'])
            · exact ih2 (fun kv hk => h _ (List.mem_cons_of_mem _ hk)) h'

/-- The folded dict's keys stay duplicate-free. -/
theorem foldl_updPP_nodup (ps : List (Patch V)) :
    ∀ (pp : List (String × Patch V)), (keysA pp).Nodup →
    (keysA (ps.foldl updPP pp)).Nodup := by
  induction ps with
  | nil => intro pp h; simpa using h
  | cons p rest ih =>
      intro pp h
      exact ih _ (keysA_nodup_setA _ _ _ h)

/-- The folded dict is empty iff no collapsible patch was submitted. -/
theorem foldl_updPP_isEmpty (ps : List (Patch V)) :
    ∀ (pp : List (String × Patch V)),
    (ps.foldl updPP pp).isEmpty = (pp.isEmpty && ps.isEmpty) := by
  induction ps with
  | nil => intro pp; simp
  | cons p rest ih =>
      intro pp
      simp only [List.foldl_cons, ih, updPP]
      have : (setA pp p.path p).isEmpty = false := by
        cases pp <;> simp [setA]
        split <;> simp
      simp [this]

/-- Shows `lastForPath` finds something exactly for the paths present in the
list. -/
theorem lastForPath_isSome (ps : List (Patch V)) (k : String) :
    (lastForPath ps k).isSome ↔ ∃ p ∈ ps, p.path = k := by
  induction ps with
  | nil => simp [lastForPath]
  | cons p rest ih =>
      simp only [lastForPath]
      cases h : lastForPath rest k with
      | some q =>
          simp only [Option.isSome_some, true_iff]
          have hex : ∃ p ∈ rest, p.path = k := by
            rw [← ih]
            simp [h]
          rcases hex with ⟨q', hq', hpq⟩
          exact ⟨q', List.mem_cons_of_mem _ hq', hpq⟩
      | none =>
          by_cases hp : p.path = k
          · simp [hp]
          · simp only [if_neg hp]
            rw [h] at ih
            simp only [Option.isSome_none, Bool.false_eq_true, false_iff] at ih
            constructor
            · intro hfalse
              simp at hfalse
            · rintro ⟨q', hq', hpq⟩
              rcases List.mem_cons.mp hq' with h' | h'
              · exact absurd (h' ▸ hpq) hp
              · exact absurd ⟨q', h', hpq⟩ ih

/-! ### Flush- and send-level lemmas -/

/-- Flushing a non-empty queue always yields a non-empty batch. -/
theorem flushBatch_ne_nil (msgs : List (PendingMessage V)) (h : msgs ≠ []) :
    flushBatch msgs ≠ [] := by
  have he : msgs.isEmpty = false := by simpa [List.isEmpty_iff] using h
  by_cases h1 : (optimize_batch msgs).length = 1
  · have : optimize_batch msgs ≠ [] := by
      intro hc
      rw [hc] at h1
      simp at h1
    simpa [flushBatch, he, h1] using this
  · simp [flushBatch, he, h1]

/-- Shows `_send_batch` never lets a transport exception escape. -/
theorem send_batch_ok (sendOk : String → Bool) (cid : String)
    (batch : List (OutMsg V)) : send_batch sendOk cid batch = .ok () := by
  unfold send_batch
  cases sendAll sendOk cid batch <;> simp

/-- With batching enabled, `add_message` returns the flush of the whole
queue (previous pending messages plus the new one) exactly when the
priority is ≥ 1 or the queue reaches `max_batch_size`. -/
theorem add_message_flush_iff (cfg : BatchConfig) (st : BatcherState V)
    (cid : String) (t : String) (d : MsgData V) (pr : Int)
    (h : cfg.enabled = true) :
    ((add_message cfg st cid t d pr).1 ≠ none ↔
      (1 ≤ pr ∨ cfg.max_batch_size ≤
        ((lookupA st.pending cid).getD []).length + 1)) ∧
    (∀ b, (add_message cfg st cid t d pr).1 = some b →
      b = flushBatch ((lookupA st.pending cid).getD [] ++ [⟨t, d, pr⟩]) ∧
      b ≠ []) := by
  have hq : ((lookupA st.pending cid).getD [] ++
      [(⟨t, d, pr⟩ : PendingMessage V)]).length =
      ((lookupA st.pending cid).getD []).length + 1 := by
    simp
  by_cases hf : 0 < pr ∨ cfg.max_batch_size ≤
      ((lookupA st.pending cid).getD [] ++
        [(⟨t, d, pr⟩ : PendingMessage V)]).length
  · have hres : (add_message cfg st cid t d pr).1 =
        some (flushBatch ((lookupA st.pending cid).getD [] ++ [⟨t, d, pr⟩])) := by
      simp only [add_message, h, Bool.true_eq_false, if_false, if_pos hf,
        flushSt, lookupA_setA]
      simp
    refine ⟨?_, ?_⟩
    · rw [hres]
      simp only [ne_eq, Option.some_ne_none, not_false_iff, true_iff]
      rcases hf with hf | hf
      · exact Or.inl (by omega)
      · exact Or.inr (by rw [hq] at hf; exact hf)
    · intro b hb
      rw [hres] at hb
      have hb' := Option.some.inj hb
      refine ⟨hb'.symm, ?_⟩
      rw [← hb']
      exact flushBatch_ne_nil _ (by simp)
  · have hres : (add_message cfg st cid t d pr).1 = none := by
      simp only [add_message, h, Bool.true_eq_false, if_false, if_neg hf]
      split <;> simp
    refine ⟨?_, ?_⟩
    · rw [hres]
      obtain ⟨h1, h2⟩ : pr ≤ 0 ∧
          ((lookupA st.pending cid).getD []).length + 1 < cfg.max_batch_size := by
        push_neg at hf
        rw [hq] at hf
        exact hf
      have hr : ¬(1 ≤ pr ∨ cfg.max_batch_size ≤
          ((lookupA st.pending cid).getD []).length + 1) := by
        push_neg
        exact ⟨by omega, h2⟩
      simp [hr]
    · intro b hb
      rw [hres] at hb
      exact absurd hb (by simp)

/-- A producer submitting a sequence of messages for one subscriber, in
order: the per-call results of `add_message` and the final batcher
state. -/
def addRun (cfg : BatchConfig) (cid : String) :
    List (PendingMessage V) → BatcherState V →
    List (Option (List (OutMsg V))) × BatcherState V
  | [], st => ([], st)
  | m :: rest, st =>
      let r := add_message cfg st cid m.type m.data m.priority
      let rr := addRun cfg cid rest r.2
      (r.1 :: rr.1, rr.2)

/-- A normal-priority `add_message` below the size threshold flushes
nothing and only appends to the pending queue. -/
theorem add_message_no_flush (cfg : BatchConfig) (st : BatcherState V)
    (cid : String) (t : String) (d : MsgData V) (pr : Int)
    (h : cfg.enabled = true) (hpr : pr ≤ 0)
    (hlen : ((lookupA st.pending cid).getD []).length + 1 <
      cfg.max_batch_size) :
    (add_message cfg st cid t d pr).1 = none ∧
    (add_message cfg st cid t d pr).2.pending =
      setA st.pending cid ((lookupA st.pending cid).getD [] ++ [⟨t, d, pr⟩]) := by
  have hcond : ¬(0 < pr ∨ cfg.max_batch_size ≤
      ((lookupA st.pending cid).getD [] ++
        [(⟨t, d, pr⟩ : PendingMessage V)]).length) := by
    push_neg
    refine ⟨by omega, ?_⟩
    simp only [List.length_append, List.length_singleton]
    omega
  simp only [add_message, h, Bool.true_eq_false, if_false, if_neg hcond]
  split <;> simp

/-- Folding a whole below-threshold normal-priority sequence through
`add_message` flushes nothing and leaves exactly those messages pending,
in submission order. -/
theorem addRun_no_flush (cfg : BatchConfig) (cid : String)
    (hen : cfg.enabled = true) :
    ∀ (msgs : List (PendingMessage V)) (st : BatcherState V),
    (∀ m ∈ msgs, m.priority ≤ 0) →
    ((lookupA st.pending cid).getD []).length + msgs.length <
      cfg.max_batch_size →
    (∀ o ∈ (addRun cfg cid msgs st).1, o = none) ∧
    (lookupA (addRun cfg cid msgs st).2.pending cid).getD [] =
      (lookupA st.pending cid).getD [] ++ msgs := by
  intro msgs
  induction msgs with
  | nil => intro st _ _; simp [addRun]
  | cons m rest ih =>
      intro st hpr hlen
      have hm := add_message_no_flush cfg st cid m.type m.data m.priority hen
        (hpr m (List.mem_cons_self m rest))
        (by simp only [List.length_cons] at hlen; omega)
      set r := add_message cfg st cid m.type m.data m.priority with hr
      have hq : (lookupA r.2.pending cid).getD [] =
          (lookupA st.pending cid).getD [] ++ [m] := by
        rw [hm.2, lookupA_setA, if_pos rfl]
        simp
      have hrest := ih r.2
        (fun m' hm' => hpr m' (List.mem_cons_of_mem _ hm'))
        (by
          rw [hq]
          simp at hlen ⊢
          omega)
      refine ⟨?_, ?_⟩
      · intro o ho
        simp only [addRun, List.mem_cons] at ho
        rcases ho with ho | ho
        · rw [ho, ← hr, hm.1]
        · exact hrest.1 o ho
      · show (lookupA (addRun cfg cid rest r.2).2.pending cid).getD [] = _
        rw [hrest.2, hq]
        simp

/-- If the pending queue for `cid` is the non-empty `q`, the expiring
delayed-flush task produces `flushBatch q`. -/
theorem delayedFlushFire_batch (st : BatcherState V) (cid : String)
    (q : List (PendingMessage V)) (hq : (lookupA st.pending cid).getD [] = q)
    (hne : q ≠ []) : (delayedFlushFire st cid).1 = flushBatch q := by
  have hlk : lookupA st.pending cid = some q := by
    cases hl : lookupA st.pending cid with
    | none =>
        rw [hl] at hq
        simp at hq
        exact absurd hq hne
    | some q' => rw [hl] at hq; simp at hq; rw [hq]
  have hie : q.isEmpty = false := by simpa [List.isEmpty_iff] using hne
  simp [delayedFlushFire, hlk, hie, flushSt]

/-- One `optGo` pass over same-path normal replace messages with the
dict already holding that path: the dict keeps the single entry, updated
to the last value. -/
theorem optGo_replaceMsgs (p : String) (vs : List V) :
    ∀ (r : Patch V) (om : List (OutMsg V)),
    optGo (mkReplaceMsgs p vs) [(p, r)] om =
      ([(p, (vs.map (mkReplace p)).getLastD r)], om) := by
  induction vs with
  | nil => intro r om; simp [mkReplaceMsgs, optGo]
  | cons v vs ih =>
      intro r om
      have hstep : optGo (mkReplaceMsgs p (v :: vs)) [(p, r)] om =
          optGo (mkReplaceMsgs p vs) [(p, mkReplace p v)] om := by
        simp [mkReplaceMsgs, optGo, patchMsg, procPatches, mkReplace,
          MsgData.getPatches, setA, MessageType.PATCH]
      rw [hstep, ih]
      simp [List.getLastD_eq_getLast?, List.getLast?_cons]

/-- Flushing a queue of same-path normal replace messages yields one
`PATCH` entry holding the single collapsed patch with the last value. -/
theorem flushBatch_replaceMsgs (p : String) (vs : List V) (vlast : V) :
    flushBatch (mkReplaceMsgs p (vs ++ [vlast])) =
      [OutMsg.mk MessageType.PATCH (.patches [mkReplace p vlast])] := by
  have hgo : optGo (mkReplaceMsgs p (vs ++ [vlast])) [] [] =
      ([(p, mkReplace p vlast)], []) := by
    cases vs with
    | nil =>
        simp [mkReplaceMsgs, optGo, patchMsg, procPatches, mkReplace,
          MsgData.getPatches, setA, MessageType.PATCH]
    | cons v vs' =>
        have hstep : optGo (mkReplaceMsgs p ((v :: vs') ++ [vlast])) [] [] =
            optGo (mkReplaceMsgs p (vs' ++ [vlast])) [(p, mkReplace p v)] [] := by
          simp [mkReplaceMsgs, optGo, patchMsg, procPatches, mkReplace,
            MsgData.getPatches, setA, MessageType.PATCH]
        rw [hstep, optGo_replaceMsgs]
        simp [List.getLastD_eq_getLast?, List.getLast?_concat]
  have hne : mkReplaceMsgs p (vs ++ [vlast]) ≠ [] := by
    simp [mkReplaceMsgs]
  have hie : (mkReplaceMsgs p (vs ++ [vlast])).isEmpty = false := by
    simpa [List.isEmpty_iff] using hne
  simp [flushBatch, hie, optimize_batch, hgo]

/-! ### Claim theorems -/

/-- C1: for every sequence of priority-0 `replace` patches targeting the
same path enqueued for one subscriber within a single batch window
(no synchronous flush occurs on any enqueue), the flushed batch — here
produced by the expiring delay timer — contains exactly one patch for
that path, and its value is the value of the last submitted patch. -/
theorem c1_coalesce_replace_same_path (cfg : BatchConfig) (cid p : String)
    (vs : List V) (vlast : V) (hen : cfg.enabled = true)
    (hlen : vs.length + 1 < cfg.max_batch_size) :
    (∀ o ∈ (addRun cfg cid (mkReplaceMsgs p (vs ++ [vlast]))
      BatcherState.init).1, o = none) ∧
    (delayedFlushFire (addRun cfg cid (mkReplaceMsgs p (vs ++ [vlast]))
      BatcherState.init).2 cid).1 =
      [OutMsg.mk MessageType.PATCH (.patches [mkReplace p vlast])] := by
  have hrun := addRun_no_flush cfg cid hen
    (mkReplaceMsgs p (vs ++ [vlast])) BatcherState.init
    (by
      intro m hm
      simp only [mkReplaceMsgs, List.mem_map] at hm
      rcases hm with ⟨v, _, rfl⟩
      simp [patchMsg])
    (by
      simp only [BatcherState.init, lookupA, mkReplaceMsgs, List.length_map,
        List.length_append, List.length_singleton, Option.getD_none,
        List.length_nil]
      omega)
  refine ⟨hrun.1, ?_⟩
  rw [delayedFlushFire_batch _ _ (mkReplaceMsgs p (vs ++ [vlast]))
    (by
      rw [hrun.2]
      simp [BatcherState.init, lookupA])
    (by simp [mkReplaceMsgs])]
  exact flushBatch_replaceMsgs p vs vlast

/-- C1 witness: three `replace` values for `/tasks/42/status` inside one
window collapse to a single patch carrying `"done"`. -/
theorem c1_coalesce_replace_same_path_witness :
    (∀ o ∈ (addRun ({} : BatchConfig) "s"
      (mkReplaceMsgs "/tasks/42/status" (["todo", "inprogress"] ++ ["done"]))
      BatcherState.init).1, o = none) ∧
    (delayedFlushFire (addRun ({} : BatchConfig) "s"
      (mkReplaceMsgs "/tasks/42/status" (["todo", "inprogress"] ++ ["done"]))
      BatcherState.init).2 "s").1 =
      [OutMsg.mk MessageType.PATCH
        (.patches [mkReplace "/tasks/42/status" "done"])] :=
  c1_coalesce_replace_same_path {} "s" "/tasks/42/status"
    ["todo", "inprogress"] "done" rfl (by decide)

/-- C5: with batching enabled, `add_message` returns a batch
synchronously iff the priority is ≥ 1 or the queue length reaches
`max_batch_size`; a returned batch is exactly the flush of all
previously unflushed messages plus the new one, and is never empty. -/
theorem c5_enqueue_flush_iff (cfg : BatchConfig) (st : BatcherState V)
    (cid t : String) (d : MsgData V) (pr : Int) (h : cfg.enabled = true) :
    ((add_message cfg st cid t d pr).1 ≠ none ↔
      (1 ≤ pr ∨ cfg.max_batch_size ≤
        ((lookupA st.pending cid).getD []).length + 1)) ∧
    (∀ b, (add_message cfg st cid t d pr).1 = some b →
      b = flushBatch ((lookupA st.pending cid).getD [] ++ [⟨t, d, pr⟩]) ∧
      b ≠ []) :=
  add_message_flush_iff cfg st cid t d pr h

/-- C5 witness: a priority-1 message on a fresh queue flushes
immediately under the default configuration. -/
theorem c5_enqueue_flush_iff_witness :
    ((add_message ({} : BatchConfig) (BatcherState.init : BatcherState String) "s"
      MessageType.PATCH (.withPatches [mkRemove "/t"]) 1).1 ≠ none ↔
      (1 ≤ (1 : Int) ∨ ({} : BatchConfig).max_batch_size ≤
        ((lookupA (BatcherState.init : BatcherState String).pending "s").getD
          []).length + 1)) ∧
    (∀ b, (add_message ({} : BatchConfig) (BatcherState.init : BatcherState String)
      "s" MessageType.PATCH (.withPatches [mkRemove "/t"]) 1).1 = some b →
      b = flushBatch ((lookupA (BatcherState.init : BatcherState String).pending
        "s").getD [] ++ [⟨MessageType.PATCH, .withPatches [mkRemove "/t"], 1⟩]) ∧
      b ≠ []) :=
  c5_enqueue_flush_iff {} BatcherState.init "s" MessageType.PATCH
    (.withPatches [mkRemove "/t"]) 1 rfl

/-- C9: within one flush window, last-writer-wins also applies across op
kinds: an `add` or `replace` patch enqueued after a `remove` for the
same path supersedes the remove, so the flushed batch contains only the
later `add`/`replace`. -/
theorem c9_add_replace_supersedes_remove (p : String) (v : V) (o : String)
    (ho : o = "add" ∨ o = "replace") :
    flushBatch [patchMsg [mkRemove p] 0,
      patchMsg [⟨some o, p, some v⟩] 0] =
      [OutMsg.mk MessageType.PATCH (.patches [⟨some o, p, some v⟩])] := by
  rcases ho with ho | ho <;> subst ho <;>
    simp [flushBatch, optimize_batch, optGo, procPatches, MsgData.getPatches,
      patchMsg, mkRemove, MessageType.PATCH, setA]

/-- C9 witness: an `add` for `/tasks/9` submitted after a `remove` for
the same path leaves only the `add` in the flushed batch. -/
theorem c9_add_replace_supersedes_remove_witness :
    flushBatch [patchMsg [mkRemove "/tasks/9"] 0,
      patchMsg [(⟨some "add", "/tasks/9", some "x"⟩ : Patch String)] 0] =
      [OutMsg.mk MessageType.PATCH
        (.patches [(⟨some "add", "/tasks/9", some "x"⟩ : Patch String)])] :=
  c9_add_replace_supersedes_remove "/tasks/9" "x" "add" (Or.inl rfl)

/-- C2 counterexample: a pending normal-priority `replace` for
`/tasks/42/status` followed by a priority-1 `remove` for `/tasks/7`
flushes as a single unwrapped `PATCH` envelope containing both patches —
not as a `BATCH_PATCH` envelope, because all patch-shaped entries merge
into one optimized entry and a one-entry result is returned
unwrapped. -/
theorem c2_counterexample :
    (add_message ({} : BatchConfig)
      (⟨[("s", [patchMsg [mkReplace "/tasks/42/status" "done"] 0])], []⟩ :
        BatcherState String)
      "s" MessageType.PATCH (.withPatches [mkRemove "/tasks/7"]) 1).1 =
      some [OutMsg.mk MessageType.PATCH
        (.patches [mkReplace "/tasks/42/status" "done",
          mkRemove "/tasks/7"])] ∧
    MessageType.PATCH ≠ MessageType.BATCH_PATCH :=
  ⟨rfl, by decide⟩

/-- C2 amended: the mid-window priority-1 `remove` triggers an immediate
flush whose result is one unwrapped `PATCH` message whose patch list
contains the collapsed `replace` and the `remove`, in that relative
order; the wrap rule holds at the level of optimized entries: exactly
one optimized entry is returned unwrapped, two or more are wrapped in a
single `BATCH_PATCH` envelope with the entry count. -/
theorem c2_priority_flush_merges_into_one_patch (cfg : BatchConfig)
    (cid pA pB : String) (vA : V) (ts : List (String × Timer))
    (hen : cfg.enabled = true) (hne : pA ≠ pB) :
    (add_message cfg
      ⟨[(cid, [patchMsg [mkReplace pA vA] 0])], ts⟩ cid
      MessageType.PATCH (.withPatches [mkRemove pB]) 1).1 =
      some [OutMsg.mk MessageType.PATCH
        (.patches [mkReplace pA vA, mkRemove pB])] ∧
    (∀ msgs : List (PendingMessage V), msgs ≠ [] →
      ((optimize_batch msgs).length = 1 →
        flushBatch msgs = optimize_batch msgs) ∧
      ((optimize_batch msgs).length ≠ 1 →
        flushBatch msgs = [OutMsg.mk MessageType.BATCH_PATCH
          (.batchPayload (optimize_batch msgs)
            (optimize_batch msgs).length)])) := by
  constructor
  · simp [add_message, hen, flushSt, lookupA_setA, lookupA, flushBatch,
      optimize_batch, optGo, procPatches, MsgData.getPatches, patchMsg,
      mkReplace, mkRemove, MessageType.PATCH, setA, hne]
  · intro msgs hne'
    have hie : msgs.isEmpty = false := by simpa [List.isEmpty_iff] using hne'
    exact ⟨fun h1 => by simp [flushBatch, hie, h1],
      fun h1 => by simp [flushBatch, hie, h1]⟩

/-- C2 amended witness. -/
theorem c2_priority_flush_merges_into_one_patch_witness :
    (add_message ({} : BatchConfig)
      (⟨[("s", [patchMsg [mkReplace "/a" ("x" : String)] 0])], []⟩ :
        BatcherState String) "s"
      MessageType.PATCH (.withPatches [mkRemove "/b"]) 1).1 =
      some [OutMsg.mk MessageType.PATCH
        (.patches [mkReplace "/a" "x", mkRemove "/b"])] ∧
    (∀ msgs : List (PendingMessage String), msgs ≠ [] →
      ((optimize_batch msgs).length = 1 →
        flushBatch msgs = optimize_batch msgs) ∧
      ((optimize_batch msgs).length ≠ 1 →
        flushBatch msgs = [OutMsg.mk MessageType.BATCH_PATCH
          (.batchPayload (optimize_batch msgs)
            (optimize_batch msgs).length)])) :=
  c2_priority_flush_merges_into_one_patch {} "s" "/a" "/b" "x" [] rfl
    (by decide)

/-- C3 counterexample: a normal-priority message schedules a
delayed-flush task; a subsequent priority-1 message flushes the queue
synchronously, yet the `_flush_tasks` entry for the subscriber is still
an outstanding (not cancelled, not forgotten) task afterwards — `_flush`
never touches `_flush_tasks`. -/
theorem c3_counterexample :
    ((add_message ({} : BatchConfig)
      ((add_message ({} : BatchConfig) (BatcherState.init : BatcherState String) "s"
        MessageType.PATCH (.withPatches [mkReplace "/a" "v1"]) 0).2) "s"
      MessageType.PATCH (.withPatches [mkRemove "/b"]) 1).1).isSome = true ∧
    lookupA (add_message ({} : BatchConfig)
      ((add_message ({} : BatchConfig) (BatcherState.init : BatcherState String) "s"
        MessageType.PATCH (.withPatches [mkReplace "/a" "v1"]) 0).2) "s"
      MessageType.PATCH (.withPatches [mkRemove "/b"]) 1).2.flushTasks "s" =
      some Timer.outstanding ∧
    lookupA (add_message ({} : BatchConfig)
      ((add_message ({} : BatchConfig) (BatcherState.init : BatcherState String) "s"
        MessageType.PATCH (.withPatches [mkReplace "/a" "v1"]) 0).2) "s"
      MessageType.PATCH (.withPatches [mkRemove "/b"]) 1).2.pending "s" =
      none :=
  ⟨rfl, rfl, rfl⟩

/-- C3 amended: after every flush the subscriber's pending queue entry
is gone; `flush_all` and `clear` additionally cancel and drop the timer
entry, but the internal `_flush` (run by the size/priority triggers)
leaves `_flush_tasks` untouched, so a previously scheduled timer stays
outstanding; still, timer entries are keyed per subscriber (at most one
entry each, duplicate-freeness is preserved), and no second timer is
scheduled while one is outstanding. -/
theorem c3_flush_queue_and_timer_lifecycle (cfg : BatchConfig)
    (st : BatcherState V) (cid t : String) (d : MsgData V) (pr : Int) :
    lookupA (flushSt st cid).2.pending cid = none ∧
    (flushSt st cid).2.flushTasks = st.flushTasks ∧
    lookupA (flush_all st cid).2.pending cid = none ∧
    lookupA (flush_all st cid).2.flushTasks cid = none ∧
    lookupA (clearB st cid).pending cid = none ∧
    lookupA (clearB st cid).flushTasks cid = none ∧
    ((keysA st.flushTasks).Nodup →
      (keysA (add_message cfg st cid t d pr).2.flushTasks).Nodup) ∧
    (cfg.enabled = true → pr ≤ 0 →
      ((lookupA st.pending cid).getD []).length + 1 < cfg.max_batch_size →
      lookupA st.flushTasks cid = some .outstanding →
      (add_message cfg st cid t d pr).2.flushTasks = st.flushTasks) := by
  have hp : ∀ s : BatcherState V, lookupA (flushSt s cid).2.pending cid = none := by
    intro s
    unfold flushSt
    cases hl : lookupA s.pending cid with
    | none => simpa using hl
    | some msgs => simp [lookupA_eraseA]
  have hft : ∀ s : BatcherState V, (flushSt s cid).2.flushTasks = s.flushTasks := by
    intro s
    unfold flushSt
    cases lookupA s.pending cid <;> rfl
  refine ⟨hp st, hft st, hp _, ?_, ?_, ?_, ?_, ?_⟩
  · rw [flush_all, hft]
    simp [lookupA_eraseA]
  · simp [clearB, lookupA_eraseA]
  · simp [clearB, lookupA_eraseA]
  · intro hnd
    unfold add_message
    split
    · exact hnd
    · dsimp only
      split
      · rw [hft]
        exact hnd
      · split
        · exact keysA_nodup_setA _ _ _ hnd
        · exact hnd
  · intro hen hpr hlen hout
    have hcond : ¬(0 < pr ∨ cfg.max_batch_size ≤
        ((lookupA st.pending cid).getD [] ++
          [(⟨t, d, pr⟩ : PendingMessage V)]).length) := by
      push_neg
      refine ⟨by omega, ?_⟩
      simp only [List.length_append, List.length_singleton]
      omega
    have htd : taskDone (lookupA st.flushTasks cid) = false := by
      rw [hout]
      rfl
    simp only [add_message, hen, Bool.true_eq_false, if_false, if_neg hcond,
      htd]
    simp

/-- C3 amended witness: a state with one outstanding timer for `"s"` and
an empty queue. -/
theorem c3_flush_queue_and_timer_lifecycle_witness :
    lookupA (flushSt (⟨[], [("s", Timer.outstanding)]⟩ : BatcherState String)
      "s").2.pending "s" = none ∧
    (flushSt (⟨[], [("s", Timer.outstanding)]⟩ : BatcherState String)
      "s").2.flushTasks = [("s", Timer.outstanding)] ∧
    lookupA (flush_all (⟨[], [("s", Timer.outstanding)]⟩ : BatcherState String)
      "s").2.pending "s" = none ∧
    lookupA (flush_all (⟨[], [("s", Timer.outstanding)]⟩ : BatcherState String)
      "s").2.flushTasks "s" = none ∧
    lookupA (clearB (⟨[], [("s", Timer.outstanding)]⟩ : BatcherState String)
      "s").pending "s" = none ∧
    lookupA (clearB (⟨[], [("s", Timer.outstanding)]⟩ : BatcherState String)
      "s").flushTasks "s" = none ∧
    ((keysA [("s", Timer.outstanding)]).Nodup →
      (keysA (add_message ({} : BatchConfig)
        (⟨[], [("s", Timer.outstanding)]⟩ : BatcherState String) "s"
        MessageType.PATCH (.withPatches [mkReplace "/a" "v"]) 0).2.flushTasks).Nodup) ∧
    (({} : BatchConfig).enabled = true → (0 : Int) ≤ 0 →
      ((lookupA (⟨[], [("s", Timer.outstanding)]⟩ :
        BatcherState String).pending "s").getD []).length + 1 <
        ({} : BatchConfig).max_batch_size →
      lookupA [("s", Timer.outstanding)] "s" = some .outstanding →
      (add_message ({} : BatchConfig)
        (⟨[], [("s", Timer.outstanding)]⟩ : BatcherState String) "s"
        MessageType.PATCH (.withPatches [mkReplace "/a" "v"]) 0).2.flushTasks =
        [("s", Timer.outstanding)]) :=
  c3_flush_queue_and_timer_lifecycle {}
    ⟨[], [("s", Timer.outstanding)]⟩ "s" MessageType.PATCH
    (.withPatches [mkReplace "/a" "v"]) 0

/-- C4 counterexample: a `PATCH` message submitted *before* a
`snapshot` message nevertheless appears *after* it in the flushed batch
— `_optimize_batch` always emits `other_messages` first and appends the
merged patch entry last, so flush does not preserve submission (FIFO)
order between patch and non-patch messages. -/
theorem c4_counterexample :
    flushBatch [patchMsg [mkReplace "/a" "v"] 0,
      (⟨MessageType.SNAPSHOT, .raw "x", 0⟩ : PendingMessage String)] =
      [OutMsg.mk MessageType.BATCH_PATCH (.batchPayload
        [OutMsg.mk MessageType.SNAPSHOT (.fromMsg (.raw "x")),
         OutMsg.mk MessageType.PATCH (.patches [mkReplace "/a" "v"])] 2)] ∧
    MessageType.SNAPSHOT ≠ MessageType.PATCH :=
  ⟨rfl, by decide⟩

/-- C4 amended: the optimized batch is *not* FIFO across the
patch/non-patch divide; instead it is all pass-through entries
(non-`PATCH` messages and non-collapsible patches) in submission order,
followed — iff any collapsible patch exists — by a single merged `PATCH`
entry in which every path occurs at most once and each entry is the
*last* patch submitted for its path, with every submitted collapsible
path represented. -/
theorem c4_optimize_order_structure (msgs : List (PendingMessage V)) :
    (allCollapsible msgs = [] → optimize_batch msgs = passThrough msgs) ∧
    (allCollapsible msgs ≠ [] → ∃ ps : List (Patch V),
      optimize_batch msgs = passThrough msgs ++
        [OutMsg.mk MessageType.PATCH (.patches ps)] ∧
      (ps.map fun q => q.path).Nodup ∧
      (∀ q ∈ ps, lastForPath (allCollapsible msgs) q.path = some q) ∧
      (∀ p ∈ allCollapsible msgs, ∃ q ∈ ps, q.path = p.path)) := by
  have hspec := optimize_batch_spec msgs
  have hinv := foldl_updPP_path_inv (allCollapsible msgs) [] (by simp)
  have hnd := foldl_updPP_nodup (allCollapsible msgs) [] (by simp [keysA])
  constructor
  · intro h0
    rw [hspec]
    simp [h0]
  · intro h0
    have hne : ((allCollapsible msgs).foldl updPP []).isEmpty = false := by
      rw [foldl_updPP_isEmpty]
      simpa [List.isEmpty_iff] using h0
    refine ⟨((allCollapsible msgs).foldl updPP []).map Prod.snd,
      ?_, ?_, ?_, ?_⟩
    · rw [hspec, hne]
      simp
    · have hkeys : (((allCollapsible msgs).foldl updPP []).map
          Prod.snd).map (fun q => q.path) =
          keysA ((allCollapsible msgs).foldl updPP []) := by
        rw [List.map_map, keysA]
        apply List.map_congr_left
        intro kv hkv
        simpa using hinv kv hkv
      rw [hkeys]
      exact hnd
    · intro q hq
      obtain ⟨k, hk⟩ := snd_mem_of_mem _ _ hq
      have hpath : q.path = k := hinv (k, q) hk
      have hlk : lookupA ((allCollapsible msgs).foldl updPP []) k = some q :=
        mem_lookupA _ _ _ hnd hk
      rw [lookupA_foldl_updPP] at hlk
      rw [hpath]
      cases hl : lastForPath (allCollapsible msgs) k with
      | none =>
          rw [hl] at hlk
          simp [lookupA, Option.or] at hlk
      | some q' =>
          rw [hl] at hlk
          simp [Option.or] at hlk
          rw [hlk]
    · intro p hp
      have hsome : (lastForPath (allCollapsible msgs) p.path).isSome =
          true := (lastForPath_isSome _ _).mpr ⟨p, hp, rfl⟩
      obtain ⟨q', hq'⟩ := Option.isSome_iff_exists.mp hsome
      have hlk : lookupA ((allCollapsible msgs).foldl updPP []) p.path =
          some q' := by
        rw [lookupA_foldl_updPP, hq']
        rfl
      have hmem := lookupA_mem _ _ _ hlk
      exact ⟨q', List.mem_map.mpr ⟨(p.path, q'), hmem, rfl⟩,
        hinv (p.path, q') hmem⟩

/-- C4 amended witness: for the two-message queue of the counterexample
scenario the merged entry exists and carries the single collapsible
patch. -/
theorem c4_optimize_order_structure_witness :
    ∃ ps : List (Patch String),
      optimize_batch [patchMsg [mkReplace "/a" "v"] 0,
        (⟨MessageType.SNAPSHOT, .raw "x", 0⟩ : PendingMessage String)] =
        passThrough [patchMsg [mkReplace "/a" "v"] 0,
          (⟨MessageType.SNAPSHOT, .raw "x", 0⟩ : PendingMessage String)] ++
          [OutMsg.mk MessageType.PATCH (.patches ps)] ∧
      (ps.map fun q => q.path).Nodup ∧
      (∀ q ∈ ps, lastForPath (allCollapsible
        [patchMsg [mkReplace "/a" "v"] 0,
          (⟨MessageType.SNAPSHOT, .raw "x", 0⟩ : PendingMessage String)])
        q.path = some q) ∧
      (∀ p ∈ allCollapsible [patchMsg [mkReplace "/a" "v"] 0,
          (⟨MessageType.SNAPSHOT, .raw "x", 0⟩ : PendingMessage String)],
        ∃ q ∈ ps, q.path = p.path) :=
  (c4_optimize_order_structure [patchMsg [mkReplace "/a" "v"] 0,
    (⟨MessageType.SNAPSHOT, .raw "x", 0⟩ : PendingMessage String)]).2
    (by decide)

/-- C6 counterexample: a transport that always fails, a registered
subscriber `"a"`, and a priority-1 message: the batched transmission
path (`send_to_connection` → `_send_batch`) swallows the send failure —
the call succeeds and `"a"` is still registered afterwards, no
deregistration happens. -/
theorem c6_counterexample :
    send_to_connection (fun _ => false) ({} : BatchConfig)
      (⟨["a"], [], [], BatcherState.init⟩ : WSManagerState String) "a"
      MessageType.PATCH (.withPatches [mkRemove "/t"]) 1 =
      .ok (⟨["a"], [], [], ⟨[], []⟩⟩ : WSManagerState String) ∧
    (fun _ => false : String → Bool) "a" = false ∧
    "a" ∈ (⟨["a"], [], [], ⟨[], []⟩⟩ : WSManagerState String).connections :=
  ⟨rfl, rfl, by decide⟩

/-- C6 amended: a failing transport send on the *immediate* path
(`send_immediate`) deregisters the subscriber via `disconnect`, and no
exception surfaces from either path; on the *batched* path the failure
is caught and only logged — `_send_batch` always returns successfully
and the registry state after `send_to_connection` is identical to the
state with a fully working transport (no deregistration). -/
theorem c6_send_failure_handling (sendOk : String → Bool)
    (cfg : BatchConfig) (st : WSManagerState V) (cid t : String)
    (d : MsgData V) (pr : Int) (hmem : cid ∈ st.connections)
    (hfail : sendOk cid = false) :
    send_immediate sendOk st cid t d = disconnect st cid ∧
    (∀ batch : List (OutMsg V), send_batch sendOk cid batch = .ok ()) ∧
    send_to_connection sendOk cfg st cid t d pr =
      send_to_connection (fun _ => true) cfg st cid t d pr := by
  refine ⟨?_, fun b => send_batch_ok sendOk cid b, ?_⟩
  · simp [send_immediate, hmem, transportSend, hfail]
  · simp only [send_to_connection, if_pos hmem]
    cases hr : (add_message cfg st.batcher cid t d pr).1 with
    | none => simp [hr]
    | some batch =>
        by_cases hb : batch.isEmpty = true
        · simp [hr, hb]
        · simp [hr, hb, send_batch_ok, Bind.bind, Except.bind]

/-- C6 amended witness: immediate-path failure evicts `"a"`; the
batched path is failure-blind. -/
theorem c6_send_failure_handling_witness :
    send_immediate (fun _ => false)
      (⟨["a"], [], [], BatcherState.init⟩ : WSManagerState String) "a"
      MessageType.PING (.raw "p") =
      disconnect (⟨["a"], [], [], BatcherState.init⟩ : WSManagerState String)
        "a" ∧
    (∀ batch : List (OutMsg String),
      send_batch (fun _ => false) "a" batch = .ok ()) ∧
    send_to_connection (fun _ => false) ({} : BatchConfig)
      (⟨["a"], [], [], BatcherState.init⟩ : WSManagerState String) "a"
      MessageType.PING (.raw "p") 0 =
      send_to_connection (fun _ => true) ({} : BatchConfig)
        (⟨["a"], [], [], BatcherState.init⟩ : WSManagerState String) "a"
        MessageType.PING (.raw "p") 0 :=
  c6_send_failure_handling (fun _ => false) {}
    ⟨["a"], [], [], BatcherState.init⟩ "a" MessageType.PING (.raw "p") 0
    (by decide) rfl

/-- Shows `send_to_connection` never propagates an exception: the enqueue is
pure and `_send_batch` catches every transport failure. -/
theorem send_to_connection_ok (sendOk : String → Bool) (cfg : BatchConfig)
    (st : WSManagerState V) (cid t : String) (d : MsgData V) (pr : Int) :
    ∃ st', send_to_connection sendOk cfg st cid t d pr = .ok st' := by
  by_cases hmem : cid ∈ st.connections
  · refine ⟨{ st with batcher := (add_message cfg st.batcher cid t d pr).2 },
      ?_⟩
    simp only [send_to_connection, if_pos hmem]
    cases hr : (add_message cfg st.batcher cid t d pr).1 with
    | none => simp [hr]
    | some batch =>
        by_cases hb : batch.isEmpty = true
        · simp [hr, hb]
        · simp [hr, hb, send_batch_ok, Bind.bind, Except.bind]
  · exact ⟨st, by simp [send_to_connection, hmem]⟩

/-- C7: broadcast resolves the channel membership as a snapshot at call
time and — whatever the transport does, including raising for some
members — completes successfully having invoked `send_to_connection`
once for every member of that snapshot, in order. -/
theorem c7_broadcast_isolation (sendOk : String → Bool)
    (cfg : BatchConfig) (st : WSManagerState V) (channel t : String)
    (d : MsgData V) (pr : Int) :
    ∃ st', broadcast_to_channel sendOk cfg st channel t d pr =
      .ok (st', (lookupA st.subscriptions channel).getD []) := by
  unfold broadcast_to_channel
  generalize (lookupA st.subscriptions channel).getD [] = members
  induction members generalizing st with
  | nil => exact ⟨st, rfl⟩
  | cons c rest ih =>
      obtain ⟨st1, h1⟩ := send_to_connection_ok sendOk cfg st c t d pr
      obtain ⟨st2, h2⟩ := ih st1
      exact ⟨st2, by simp [broadcastGo, h1, h2, Bind.bind, Except.bind]⟩

/-- C8 counterexample: `subscribe` for the unregistered id `"ghost"`
mutates both the channel membership index and the subscriber→channels
index — it is not a no-op as the specification claims. -/
theorem c8_counterexample :
    "ghost" ∉ (WSManagerState.init : WSManagerState String).connections ∧
    (subscribe (WSManagerState.init : WSManagerState String) "ghost"
      "tasks").subscriptions ≠
      (WSManagerState.init : WSManagerState String).subscriptions ∧
    (subscribe (WSManagerState.init : WSManagerState String) "ghost"
      "tasks").connection_channels ≠
      (WSManagerState.init : WSManagerState String).connection_channels :=
  ⟨by decide, by decide, by decide⟩

/-- Python `set.add` puts the element in the set. -/
theorem mem_insertUniq (l : List String) (x : String) :
    x ∈ insertUniq l x := by
  unfold insertUniq
  split
  · assumption
  · simp

/-- C8 amended: `subscribe` performs no registration check — even for an
id absent from the connection table it adds the id to the channel's
member set and the channel to the id's channel set (while leaving the
connection table itself unchanged). -/
theorem c8_subscribe_no_registration_check (st : WSManagerState V)
    (cid channel : String) (h : cid ∉ st.connections) :
    cid ∈ (lookupA (subscribe st cid channel).subscriptions channel).getD [] ∧
    channel ∈ (lookupA (subscribe st cid channel).connection_channels
      cid).getD [] ∧
    (subscribe st cid channel).connections = st.connections := by
  refine ⟨?_, ?_, rfl⟩
  · simp only [subscribe, lookupA_setA, if_pos rfl, Option.getD_some]
    exact mem_insertUniq _ _
  · simp only [subscribe, lookupA_setA, if_pos rfl, Option.getD_some]
    exact mem_insertUniq _ _

/-- C8 amended witness. -/
theorem c8_subscribe_no_registration_check_witness :
    "ghost" ∈ (lookupA (subscribe
      (WSManagerState.init : WSManagerState String) "ghost"
      "tasks").subscriptions "tasks").getD [] ∧
    "tasks" ∈ (lookupA (subscribe
      (WSManagerState.init : WSManagerState String) "ghost"
      "tasks").connection_channels "ghost").getD [] ∧
    (subscribe (WSManagerState.init : WSManagerState String) "ghost"
      "tasks").connections =
      (WSManagerState.init : WSManagerState String).connections :=
  c8_subscribe_no_registration_check WSManagerState.init "ghost" "tasks"
    (by decide)

/-- C10: for an unregistered connection id, the batched send, the
immediate send, and the forced flush all return without raising and
leave the whole manager state (registry tables, channel indexes,
batcher) unchanged. -/
theorem c10_unknown_connection_noop (sendOk : String → Bool)
    (cfg : BatchConfig) (st : WSManagerState V) (cid t : String)
    (d : MsgData V) (pr : Int) (h : cid ∉ st.connections) :
    send_to_connection sendOk cfg st cid t d pr = .ok st ∧
    send_immediate sendOk st cid t d = st ∧
    flush_connection sendOk st cid = .ok st := by
  refine ⟨?_, ?_, ?_⟩ <;>
    simp [send_to_connection, send_immediate, flush_connection, h]

/-- C10 witness: the fresh manager knows no `"ghost"`. -/
theorem c10_unknown_connection_noop_witness :
    send_to_connection (fun _ => true) ({} : BatchConfig)
      (WSManagerState.init : WSManagerState String) "ghost"
      MessageType.PATCH (.raw "x") 0 =
      .ok (WSManagerState.init : WSManagerState String) ∧
    send_immediate (fun _ => true)
      (WSManagerState.init : WSManagerState String) "ghost"
      MessageType.PATCH (.raw "x") =
      (WSManagerState.init : WSManagerState String) ∧
    flush_connection (fun _ => true)
      (WSManagerState.init : WSManagerState String) "ghost" =
      .ok (WSManagerState.init : WSManagerState String) :=
  c10_unknown_connection_noop (fun _ => true) {} WSManagerState.init
    "ghost" MessageType.PATCH (.raw "x") 0 (by decide)

end WsBatch
